import Mathlib

/-!
Shallow embedding of the retrieval-and-context-assembly and ingestion logic of
the `vorag` backend (files `backend/app/rag.py`, `backend/app/ingest.py`,
`backend/app/storage.py`).

Modelling conventions:
* Python strings are Lean `String`s; `len(s)`, `s[:n]`, `s.strip()` and
  `sep.join(parts)` are modelled by character-list based helpers (`pySlice`,
  `strip`, `joinSep`) that are structurally recursive, hence evaluable.
* Python dict metadata is an association list wrapped in `Metadata`;
  `metadata.get(k, d)` is `Metadata.getD`.
* Python floats (similarity scores) are modelled as exact rationals `ℚ`.
* External collaborators (vector index search, the LLM) are parameters of the
  functions that call them; the list of prompts handed to the LLM is returned
  alongside the result so that "the generator was never invoked" is statable.
-/

/-- A metadata dictionary: an association list from string keys to string
values, first binding wins (Python dict keys are unique, so this is faithful). -/
structure Metadata where
  entries : List (String × String)
deriving DecidableEq

/-- Python `metadata.get(k)`: the value bound to `k`, if any. -/
def Metadata.get (md : Metadata) (k : String) : Option String :=
  (md.entries.find? (fun p => p.1 == k)).map Prod.snd

/-- Python `metadata.get(k, dflt)`. -/
def Metadata.getD (md : Metadata) (k dflt : String) : String :=
  (Metadata.get md k).getD dflt

/-- A LangChain `Document`: page content plus metadata. -/
structure Document where
  page_content : String
  metadata : Metadata
deriving DecidableEq

/-- A raw scraped record as consumed by `IngestionPipeline._chunk_documents`:
a dict with optional `url`, `title`, `text`, `crawled_at` fields. -/
structure ScrapedDoc where
  url : Option String
  title : Option String
  text : Option String
  crawled_at : Option String
deriving DecidableEq

/-- Python `s[:n]`: the first `n` characters of `s`. -/
def pySlice (s : String) (n : Nat) : String :=
  String.mk (s.toList.take n)

/-- Python `s.strip()`: remove leading and trailing whitespace. -/
def strip (s : String) : String :=
  String.mk (((s.toList.dropWhile Char.isWhitespace).reverse.dropWhile
      Char.isWhitespace).reverse)

/-- Python `sep.join(parts)`. -/
def joinSep (sep : String) : List String → String
  | [] => ""
  | [p] => p
  | p :: q :: ps => p ++ sep ++ joinSep sep (q :: ps)

/-- The configured maximum context length (`settings.MAX_CONTEXT_LENGTH`). -/
def MAX_CONTEXT_LENGTH : Nat := 8000

namespace RAGSystem

/-- The fund name read off a document in `_prepare_context`:
`doc.metadata.get("fund_name", "")`. -/
def fund_name_of (doc : Document) : String :=
  Metadata.getD doc.metadata "fund_name" ""

/-- The grouping test of `_prepare_context`:
`if fund_name and fund_name != "Unknown"` (Python string truthiness:
nonempty). -/
def groupable (doc : Document) : Bool :=
  fund_name_of doc != "" && fund_name_of doc != "Unknown"

end RAGSystem

/-- One step of the grouping loop: `fund_groups[fund_name].append(doc)` on an
insertion-ordered dict, modelled on an association list — append to the first
entry with this key, or add a new entry at the end. -/
def insertGroup (groups : List (String × List Document)) (k : String)
    (d : Document) : List (String × List Document) :=
  match groups with
  | [] => [(k, [d])]
  | (k', ds) :: rest =>
      if k' = k then (k', ds ++ [d]) :: rest
      else (k', ds) :: insertGroup rest k d

/-- The body of the grouping loop of `RAGSystem._prepare_context`. -/
def groupStep (acc : List (String × List Document) × List Document)
    (doc : Document) : List (String × List Document) × List Document :=
  if RAGSystem.groupable doc then
    (insertGroup acc.1 (RAGSystem.fund_name_of doc) doc, acc.2)
  else
    (acc.1, acc.2 ++ [doc])

namespace RAGSystem

/-- The grouping loop of `_prepare_context`: returns (`fund_groups` as an
insertion-ordered association list, `other_docs`). -/
def group_docs (documents : List Document) :
    List (String × List Document) × List Document :=
  documents.foldl groupStep ([], [])

end RAGSystem

/-- The context lines emitted for one fund group:
a `=== fund_name ===` header, each document's page content, then a blank
line. -/
def fundGroupParts (groups : List (String × List Document)) : List String :=
  groups.flatMap
    (fun g => ("=== " ++ g.1 ++ " ===") :: g.2.map (fun d => d.page_content) ++ [""])

/-- The context lines emitted for one ungrouped document: a `Source:` line,
a `URL:` line when the `source_url` metadata value is nonempty, then the page
content followed by a newline. -/
def otherDocParts (doc : Document) : List String :=
  ("Source: " ++ Metadata.getD doc.metadata "title" "Unknown")
    :: ((if Metadata.getD doc.metadata "source_url" "" ≠ "" then
          ["URL: " ++ Metadata.getD doc.metadata "source_url" ""]
        else [])
      ++ [doc.page_content ++ "\n"])

/-- The `Additional Information` block: emitted only when `other_docs` is
nonempty. -/
def otherParts (other_docs : List Document) : List String :=
  if other_docs.isEmpty then []
  else "=== Additional Information ===" :: other_docs.flatMap otherDocParts

namespace RAGSystem

/-- The `context_parts` list assembled by `_prepare_context`. -/
def context_parts (documents : List Document) : List String :=
  fundGroupParts (group_docs documents).1 ++ otherParts (group_docs documents).2

/-- `full_context = "\n".join(context_parts)`. -/
def compose_context (documents : List Document) : String :=
  joinSep "\n" (context_parts documents)

/-- `RAGSystem._prepare_context`: compose the context and hard-truncate it to
`MAX_CONTEXT_LENGTH` characters plus an ellipsis when it is longer. -/
def prepare_context (documents : List Document) : String :=
  let full := compose_context documents
  if full.length > MAX_CONTEXT_LENGTH then pySlice full MAX_CONTEXT_LENGTH ++ "..."
  else full

end RAGSystem

/-- Round-half-to-even at integer granularity, as Python's builtin `round`
behaves on exact values (float representation issues are out of scope of this
embedding). -/
def roundHalfEven (x : ℚ) : ℤ :=
  let f := ⌊x⌋
  if x - f < 1/2 then f
  else if (1:ℚ)/2 < x - f then f + 1
  else if 2 ∣ f then f else f + 1

/-- Python `round(x, 3)`. -/
def round3 (x : ℚ) : ℚ :=
  (roundHalfEven (x * 1000) : ℚ) / 1000

/-- A source citation (`app.models.SourceDocument`). -/
structure SourceDocument where
  title : String
  url : String
  snippet : String
  score : ℚ
deriving DecidableEq

namespace RAGSystem

/-- The per-match similarity computed by `_format_sources`:
`max(0.0, min(1.0, 1.0 / (1.0 + score)))` where `score` is the raw distance. -/
def similarity_score (distance : ℚ) : ℚ :=
  max 0 (min 1 (1 / (1 + distance)))

/-- The citation built for one `(document, distance)` match by
`_format_sources`. -/
def format_source (p : Document × ℚ) : SourceDocument :=
  { title := Metadata.getD p.1.metadata "title" "Unknown"
  , url := Metadata.getD p.1.metadata "source_url" ""
  , snippet :=
      if p.1.page_content.length > 200 then pySlice p.1.page_content 200 ++ "..."
      else p.1.page_content
  , score := round3 (similarity_score p.2) }

/-- `RAGSystem._format_sources`. -/
def format_sources (docs_with_scores : List (Document × ℚ)) : List SourceDocument :=
  docs_with_scores.map format_source

end RAGSystem

/-- The answer/sources pair returned by `RAGSystem.query` (the wall-clock
`query_time_ms` field is not modelled). -/
structure QueryResult where
  answer : String
  sources : List SourceDocument
deriving DecidableEq

/-- The prompt built by `RAGSystem._generate_answer`: the fixed instruction
template with the context and question substituted.  The instruction prose is
abbreviated here; no claim depends on its exact wording, only on the prompt
being a pure function of the pair (context, question). -/
def buildPrompt (context question : String) : String :=
  "You are a helpful AI assistant specializing in financial fund analysis. "
    ++ "Answer the question based ONLY on the provided context.\n\nContext:\n"
    ++ context ++ "\n\nQuestion: " ++ question ++ "\n\nAnswer:"

namespace RAGSystem

/-- The fixed answer returned when retrieval comes back empty. -/
def no_info_answer : String :=
  "I couldn\x27t find any relevant information to answer your question."

/-- `RAGSystem.query`, shallowly embedded.  `docs_with_scores` stands for the
value returned by `vector_store.similarity_search_with_score(question, top_k)`
and `llm` for the answer generator.  The second component of the result is the
list of prompts actually handed to `llm.invoke` — empty means the Answer
Generator was never invoked on this run. -/
def query (question : String) (docs_with_scores : List (Document × ℚ))
    (llm : String → String) : QueryResult × List String :=
  if docs_with_scores.isEmpty then
    ({ answer := no_info_answer, sources := [] }, [])
  else
    let context_docs := docs_with_scores.map Prod.fst
    let context := prepare_context context_docs
    let prompt := buildPrompt context question
    ({ answer := llm prompt, sources := format_sources docs_with_scores }, [prompt])

end RAGSystem

/-- Modelled from the spec: the text splitter used by the ingestion pipeline
(LangChain's `RecursiveCharacterTextSplitter`, library code that is not part
of this repository).  Per the spec it "splits each scraped document's text
into overlapping fixed-size segments": each emitted segment holds at most
`chunk_size` characters and consecutive segments share `overlap` characters.
The fuel argument (initially the text length) makes the recursion structural;
since each step consumes at least one character, the fuel never runs out. -/
def splitCharsAux (chunk_size step : Nat) : Nat → List Char → List (List Char)
  | 0, cs => [cs]
  | fuel + 1, cs =>
      if cs.length ≤ chunk_size then [cs]
      else cs.take chunk_size :: splitCharsAux chunk_size step fuel (cs.drop step)

/-- Modelled from the spec: split a character list into chunks of at most
`chunk_size` characters, consecutive chunks overlapping in `overlap`
characters (the step is forced to be at least one character). -/
def splitChars (chunk_size overlap : Nat) (cs : List Char) : List (List Char) :=
  splitCharsAux chunk_size (max (chunk_size - overlap) 1) cs.length cs

/-- Modelled from the spec: the string-level chunk splitter. -/
def split_text (chunk_size overlap : Nat) (text : String) : List String :=
  (splitChars chunk_size overlap text.toList).map (fun cs => String.mk cs)

/-- The chunks produced for one scraped document by the loop body of
`IngestionPipeline._chunk_documents`: documents with empty or short trimmed
text are dropped; otherwise the text is split and every chunk carries the
parent document's `source`/`title`/`crawled_at` metadata (the metadata copy
`split_documents` performs is modelled per the spec: "Each output chunk
inherits the parent document's url, title, crawled_at as metadata"). -/
def docChunks (chunk_size overlap : Nat) (doc : ScrapedDoc) : List Document :=
  let text := doc.text.getD ""
  if text = "" ∨ (strip text).length < 100 then []
  else
    let md : Metadata :=
      ⟨[("source", doc.url.getD "unknown"),
        ("title", doc.title.getD "Untitled"),
        ("crawled_at", doc.crawled_at.getD "")]⟩
    (split_text chunk_size overlap text).map (fun piece => ⟨piece, md⟩)

namespace IngestionPipeline

/-- `IngestionPipeline._chunk_documents`: chunk every document in order,
concatenating the results (the Python `for`-loop with `continue` and
`all_chunks.extend`). -/
def chunk_documents (chunk_size overlap : Nat) (documents : List ScrapedDoc) :
    List Document :=
  documents.flatMap (docChunks chunk_size overlap)

end IngestionPipeline

/-- The statistics dict returned by `IngestionPipeline.run` (the wall-clock
`elapsed_time` field is not modelled). -/
structure RunResult where
  documents_scraped : Nat
  chunks_created : Nat
  chunks_indexed : Nat
deriving DecidableEq

namespace VectorStore

/-- `VectorStore.add_documents`: on an empty input, return an empty id list
without touching the store; otherwise append the documents to the store and
return one generated id per document (Chroma's generated uuids are modelled
abstractly as consecutive numbers — only their count is observable in the
claims). -/
def add_documents (store : List Document) (documents : List Document) :
    List Nat × List Document :=
  if documents.isEmpty then ([], store)
  else ((List.range documents.length).map (fun i => store.length + i),
        store ++ documents)

end VectorStore

namespace IngestionPipeline

/-- `IngestionPipeline.run`, shallowly embedded.  `scraped_docs` stands for
the value returned by `scraper.scrape_url(url, max_pages=10)` and `store` for
the vector store contents; the raised `ValueError` is an `Except.error`.  The
second component is the store after the run. -/
def run (chunk_size overlap : Nat) (url : String)
    (scraped_docs : List ScrapedDoc) (store : List Document) :
    Except String RunResult × List Document :=
  if scraped_docs.isEmpty then
    (Except.error ("No content scraped from " ++ url), store)
  else
    let chunks := chunk_documents chunk_size overlap scraped_docs
    let idsStore := VectorStore.add_documents store chunks
    (Except.ok
      { documents_scraped := scraped_docs.length
      , chunks_created := chunks.length
      , chunks_indexed := idsStore.1.length }, idsStore.2)

end IngestionPipeline

/-!
Specification-side characterization of the grouping performed by
`RAGSystem._prepare_context`, used to state the grouping claims: keys in
order of first appearance, each group holding exactly the matching documents
in match order.
-/

/-- The elements of a list with later duplicates removed: order of first
appearance. -/
def firstOccs : List String → List String
  | [] => []
  | k :: ks => k :: (firstOccs ks).filter (fun x => x != k)

/-- The documents belonging to fund group `k`, in match order. -/
def groupOf (documents : List Document) (k : String) : List Document :=
  documents.filter
    (fun d => RAGSystem.groupable d && (RAGSystem.fund_name_of d == k))

/-- The fund groups as the spec describes them: one group per distinct fund
name in order of first appearance, each holding its documents in match
order. -/
def specGroups (documents : List Document) : List (String × List Document) :=
  (firstOccs ((documents.filter RAGSystem.groupable).map RAGSystem.fund_name_of)).map
    (fun k => (k, groupOf documents k))

lemma mem_firstOccs {x : String} : ∀ {l : List String}, x ∈ firstOccs l ↔ x ∈ l
  | [] => Iff.rfl
  | k :: ks => by
      simp only [firstOccs, List.mem_cons, List.mem_filter, bne_iff_ne]
      constructor
      · rintro (rfl | ⟨h, _⟩)
        · exact Or.inl rfl
        · exact Or.inr (mem_firstOccs.mp h)
      · rintro (rfl | h)
        · exact Or.inl rfl
        · by_cases hx : x = k
          · exact Or.inl hx
          · exact Or.inr ⟨mem_firstOccs.mpr h, hx⟩

lemma firstOccs_nodup : ∀ (l : List String), (firstOccs l).Nodup
  | [] => List.nodup_nil
  | k :: ks => by
      simp only [firstOccs]
      refine List.Nodup.cons ?_ (List.Nodup.filter _ (firstOccs_nodup ks))
      intro hk
      rcases List.mem_filter.mp hk with ⟨_, hne⟩
      exact (bne_iff_ne.mp hne) rfl

lemma firstOccs_append_singleton (x : String) :
    ∀ (l : List String),
      firstOccs (l ++ [x]) =
        if x ∈ l then firstOccs l else firstOccs l ++ [x]
  | [] => by simp [firstOccs]
  | k :: ks => by
      by_cases hxk : x = k
      · subst hxk
        rw [if_pos (List.mem_cons_self x ks)]
        show x :: (firstOccs (ks ++ [x])).filter (fun y => y != x)
            = x :: (firstOccs ks).filter (fun y => y != x)
        rw [firstOccs_append_singleton x ks]
        by_cases hx : x ∈ ks
        · rw [if_pos hx]
        · rw [if_neg hx, List.filter_append]
          simp
      · show k :: (firstOccs (ks ++ [x])).filter (fun y => y != k)
            = if x ∈ k :: ks then k :: (firstOccs ks).filter (fun y => y != k)
              else (k :: (firstOccs ks).filter (fun y => y != k)) ++ [x]
        have hmem : (x ∈ k :: ks) ↔ (x ∈ ks) := by simp [List.mem_cons, hxk]
        rw [firstOccs_append_singleton x ks]
        by_cases hx : x ∈ ks
        · rw [if_pos hx, if_pos (hmem.mpr hx)]
        · rw [if_neg hx, if_neg (fun h => hx (hmem.mp h)), List.filter_append]
          simp [hxk]

lemma insertGroup_map_mem (G : String → List Document) (k : String) (d : Document) :
    ∀ (ks : List String), ks.Nodup → k ∈ ks →
      insertGroup (ks.map (fun k' => (k', G k'))) k d
        = ks.map (fun k' => (k', if k' = k then G k' ++ [d] else G k'))
  | [], _, hk => absurd hk (List.not_mem_nil k)
  | k0 :: ks, hnd, hk => by
      rcases List.nodup_cons.mp hnd with ⟨hk0, hnd'⟩
      simp only [List.map_cons, insertGroup]
      by_cases h0 : k0 = k
      · subst h0
        rw [if_pos rfl, if_pos rfl]
        congr 1
        refine List.map_congr_left (fun k' hk' => ?_)
        have hne : k' ≠ k0 := fun h => hk0 (h ▸ hk')
        rw [if_neg hne]
      · have hk' : k ∈ ks := by
          rcases List.mem_cons.mp hk with h | h
          · exact absurd h.symm h0
          · exact h
        rw [if_neg h0, if_neg h0, insertGroup_map_mem G k d ks hnd' hk']

lemma insertGroup_map_not_mem (G : String → List Document) (k : String) (d : Document) :
    ∀ (ks : List String), k ∉ ks →
      insertGroup (ks.map (fun k' => (k', G k'))) k d
        = ks.map (fun k' => (k', G k')) ++ [(k, [d])]
  | [], _ => rfl
  | k0 :: ks, hk => by
      have h0 : k0 ≠ k := fun h => hk (h ▸ List.mem_cons_self k0 ks)
      have hk' : k ∉ ks := fun h => hk (List.mem_cons_of_mem _ h)
      simp only [List.map_cons, insertGroup]
      rw [if_neg h0, insertGroup_map_not_mem G k d ks hk']
      rfl

lemma groupOf_append_singleton (documents : List Document) (d : Document) (k : String) :
    groupOf (documents ++ [d]) k
      = groupOf documents k
        ++ (if RAGSystem.groupable d && (RAGSystem.fund_name_of d == k) then [d] else []) := by
  simp only [groupOf, List.filter_append]
  congr 1
  by_cases h : (RAGSystem.groupable d && (RAGSystem.fund_name_of d == k)) = true
  · simp [List.filter, h]
  · simp [List.filter, h]

lemma groupOf_eq_nil_of_not_mem (documents : List Document) (k : String)
    (hk : k ∉ (documents.filter RAGSystem.groupable).map RAGSystem.fund_name_of) :
    groupOf documents k = [] := by
  rw [groupOf, List.filter_eq_nil_iff]
  intro d hd hcond
  simp only [Bool.and_eq_true, beq_iff_eq] at hcond
  exact hk (List.mem_map.mpr
    ⟨d, List.mem_filter.mpr ⟨hd, hcond.1⟩, hcond.2⟩)

/-- The grouping loop of `_prepare_context` computes exactly the
specification-side grouping: groups keyed by distinct fund names in order of
first appearance, each holding its documents in match order, and the
ungrouped documents in match order. -/
lemma group_docs_eq (documents : List Document) :
    RAGSystem.group_docs documents
      = (specGroups documents,
         documents.filter (fun d => !(RAGSystem.groupable d))) := by
  induction documents using List.reverseRecOn with
  | nil => rfl
  | append_singleton docs d ih =>
      have hfold : RAGSystem.group_docs (docs ++ [d])
          = groupStep (RAGSystem.group_docs docs) d := by
        simp [RAGSystem.group_docs, List.foldl_append]
      rw [hfold, ih]
      by_cases hg : RAGSystem.groupable d
      · -- the document joins (or creates) the group of its fund name
        have hstep : groupStep (specGroups docs,
            docs.filter (fun d => !(RAGSystem.groupable d))) d
            = (insertGroup (specGroups docs) (RAGSystem.fund_name_of d) d,
               docs.filter (fun d => !(RAGSystem.groupable d))) := by
          simp [groupStep, hg]
        rw [hstep]
        have hsnd : (docs ++ [d]).filter (fun d => !(RAGSystem.groupable d))
            = docs.filter (fun d => !(RAGSystem.groupable d)) := by
          simp [List.filter_append, List.filter, hg]
        set k := RAGSystem.fund_name_of d with hkdef
        have hK : ((docs ++ [d]).filter RAGSystem.groupable).map RAGSystem.fund_name_of
            = (docs.filter RAGSystem.groupable).map RAGSystem.fund_name_of ++ [k] := by
          simp [List.filter_append, List.filter, hg]
        set K := (docs.filter RAGSystem.groupable).map RAGSystem.fund_name_of with hKdef
        by_cases hk : k ∈ K
        · -- existing group: append in place
          have hfo : k ∈ firstOccs K := mem_firstOccs.mpr hk
          have h1 : insertGroup (specGroups docs) k d
              = (firstOccs K).map
                  (fun k' => (k', if k' = k then groupOf docs k' ++ [d] else groupOf docs k')) := by
            rw [specGroups, ← hKdef]
            exact insertGroup_map_mem (groupOf docs) k d (firstOccs K) (firstOccs_nodup K) hfo
          have h2 : specGroups (docs ++ [d])
              = (firstOccs K).map (fun k' => (k', groupOf (docs ++ [d]) k')) := by
            rw [specGroups, hK, firstOccs_append_singleton, if_pos hk]
          rw [h1, h2, hsnd]
          refine Prod.ext ?_ rfl
          show _ = List.map _ (firstOccs K)
          refine (List.map_congr_left (fun k' _ => ?_))
          rw [groupOf_append_singleton]
          by_cases hkk : k' = k
          · subst hkk
            simp [hg]
          · have : (RAGSystem.fund_name_of d == k') = false := by
              rw [beq_eq_false_iff_ne]
              exact fun h => hkk (h ▸ rfl)
            simp [hkk, this]
        · -- new fund: a fresh group is appended at the end
          have hfo : k ∉ firstOccs K := fun h => hk (mem_firstOccs.mp h)
          have h1 : insertGroup (specGroups docs) k d
              = specGroups docs ++ [(k, [d])] := by
            rw [specGroups, ← hKdef]
            exact insertGroup_map_not_mem (groupOf docs) k d (firstOccs K) hfo
          have h2 : specGroups (docs ++ [d])
              = (firstOccs K).map (fun k' => (k', groupOf (docs ++ [d]) k'))
                ++ [(k, groupOf (docs ++ [d]) k)] := by
            rw [specGroups, hK, firstOccs_append_singleton, if_neg hk, List.map_append,
              List.map_singleton]
          have h3 : groupOf (docs ++ [d]) k = [d] := by
            rw [groupOf_append_singleton, groupOf_eq_nil_of_not_mem docs k (hKdef ▸ hk)]
            simp [hg]
          rw [h1, h2, h3, hsnd]
          refine Prod.ext ?_ rfl
          show specGroups docs ++ [(k, [d])] = _
          congr 1
          rw [specGroups, ← hKdef]
          refine (List.map_congr_left (fun k' hk' => ?_))
          rw [groupOf_append_singleton]
          have hkk : k' ≠ k := fun h => hfo (h ▸ hk')
          have : (RAGSystem.fund_name_of d == k') = false := by
            rw [beq_eq_false_iff_ne]
            exact fun h => hkk (h ▸ rfl)
          simp [this]
      · -- not groupable: appended to other_docs, groups unchanged
        have hstep : groupStep (specGroups docs,
            docs.filter (fun d => !(RAGSystem.groupable d))) d
            = (specGroups docs,
               docs.filter (fun d => !(RAGSystem.groupable d)) ++ [d]) := by
          simp [groupStep, hg]
        rw [hstep]
        have hsnd : (docs ++ [d]).filter (fun d => !(RAGSystem.groupable d))
            = docs.filter (fun d => !(RAGSystem.groupable d)) ++ [d] := by
          simp [List.filter_append, List.filter, hg]
        have hK : ((docs ++ [d]).filter RAGSystem.groupable).map RAGSystem.fund_name_of
            = (docs.filter RAGSystem.groupable).map RAGSystem.fund_name_of := by
          simp [List.filter_append, List.filter, hg]
        have hgroups : specGroups (docs ++ [d]) = specGroups docs := by
          rw [specGroups, specGroups, hK]
          refine (List.map_congr_left (fun k' _ => ?_))
          rw [groupOf_append_singleton]
          have : (RAGSystem.groupable d && (RAGSystem.fund_name_of d == k')) = false := by
            simp [Bool.eq_false_iff.mpr hg]
          simp [this]
        rw [hgroups, hsnd]

/-!
The claims.
-/

/-- C3: if the similarity search returns zero matches, `query` returns the
fixed no-relevant-information answer and an empty sources list, and the
Answer Generator is never invoked (the prompt trace is empty) — for every
question and every behaviour of the generator. -/
theorem empty_retrieval_short_circuit (question : String) (llm : String → String) :
    RAGSystem.query question [] llm
      = ({ answer := "I couldn\x27t find any relevant information to answer your question."
         , sources := [] }, []) := rfl

/-- C5: if the scraper returns an empty document list, the ingestion
orchestrator fails with the scrape-failure error and the vector store is left
untouched — nothing is chunked or indexed, for every store contents and
configuration. -/
theorem empty_scrape_aborts (chunk_size overlap : Nat) (url : String)
    (store : List Document) :
    IngestionPipeline.run chunk_size overlap url [] store
      = (Except.error ("No content scraped from " ++ url), store) := rfl

/-- The spec's clamp, written from its words: `clamp(1/(1+distance), 0, 1)`
as `min(max(·, 0), 1)`.  Compared below with the code's
`max(0.0, min(1.0, ·))`. -/
def clampSpec (x : ℚ) : ℚ := min (max x 0) 1

/-- C4: for every distance `d ≥ 0` the citation score equals
`clamp(1/(1+d), 0, 1)` rounded to three decimals, and the unrounded
similarity `1/(1+d)` lies in `(0, 1]` and is strictly decreasing in the
distance. -/
theorem citation_score_clamped_similarity (d : ℚ) (hd : 0 ≤ d) :
    (∀ doc : Document,
        (RAGSystem.format_source (doc, d)).score = round3 (clampSpec (1 / (1 + d))))
  ∧ 0 < 1 / (1 + d) ∧ 1 / (1 + d) ≤ 1
  ∧ (∀ d2 : ℚ, d < d2 → 1 / (1 + d2) < 1 / (1 + d)) := by
  have hpos : (0:ℚ) < 1 + d := by linarith
  refine ⟨?_, ?_, ?_, ?_⟩
  · intro doc
    show round3 (RAGSystem.similarity_score d) = round3 (clampSpec (1 / (1 + d)))
    congr 1
    rw [RAGSystem.similarity_score, clampSpec, max_min_distrib_left]
    rw [max_eq_right (by norm_num : (0:ℚ) ≤ 1), max_comm, min_comm]
  · exact div_pos one_pos hpos
  · exact (div_le_one hpos).mpr (by linarith)
  · intro d2 h2
    exact one_div_lt_one_div_of_lt hpos (by linarith)

/-- Witness for the citation-score theorem at distance 1. -/
theorem citation_score_clamped_similarity_witness :
    (0:ℚ) ≤ 1
  ∧ ((∀ doc : Document,
        (RAGSystem.format_source (doc, (1:ℚ))).score = round3 (clampSpec (1 / (1 + 1))))
    ∧ 0 < 1 / (1 + (1:ℚ)) ∧ 1 / (1 + (1:ℚ)) ≤ 1
    ∧ (∀ d2 : ℚ, 1 < d2 → 1 / (1 + d2) < 1 / (1 + (1:ℚ)))) :=
  ⟨by norm_num, citation_score_clamped_similarity 1 (by norm_num)⟩

/-- A document whose (possibly missing) text has a trimmed length below the
100-character noise threshold contributes no chunks. -/
lemma docChunks_eq_nil_of_short (chunk_size overlap : Nat) (doc : ScrapedDoc)
    (h : (strip (doc.text.getD "")).length < 100) :
    docChunks chunk_size overlap doc = [] := by
  show (if doc.text.getD "" = "" ∨ (strip (doc.text.getD "")).length < 100 then []
        else _) = ([] : List Document)
  rw [if_pos (Or.inr h)]

/-- C6: a scraped document whose trimmed text is shorter than 100 characters
(including empty or missing text) yields zero chunks, both on its own and
inside a chunking run. -/
theorem short_document_yields_no_chunks (chunk_size overlap : Nat)
    (doc : ScrapedDoc) (h : (strip (doc.text.getD "")).length < 100) :
    docChunks chunk_size overlap doc = []
    ∧ IngestionPipeline.chunk_documents chunk_size overlap [doc] = [] := by
  have h1 := docChunks_eq_nil_of_short chunk_size overlap doc h
  exact ⟨h1, by simp [IngestionPipeline.chunk_documents, h1]⟩

/-- Witness for the noise-filter theorem: a document with 5-character text. -/
theorem short_document_yields_no_chunks_witness :
    (strip ((ScrapedDoc.mk (some "https://example.com") (some "T") (some "tiny ") none).text.getD "")).length < 100
  ∧ (docChunks 200 50 (ScrapedDoc.mk (some "https://example.com") (some "T") (some "tiny ") none) = []
    ∧ IngestionPipeline.chunk_documents 200 50
        [ScrapedDoc.mk (some "https://example.com") (some "T") (some "tiny ") none] = []) :=
  ⟨by decide, short_document_yields_no_chunks 200 50 _ (by decide)⟩

lemma splitCharsAux_length_le (chunk_size step : Nat) (hstep : 1 ≤ step) :
    ∀ (fuel : Nat) (cs : List Char), cs.length ≤ fuel →
      ∀ p ∈ splitCharsAux chunk_size step fuel cs, p.length ≤ chunk_size
  | 0, cs, hle => by
      intro p hp
      have hnil : cs = [] := List.eq_nil_of_length_eq_zero (Nat.le_zero.mp hle)
      subst hnil
      simp only [splitCharsAux, List.mem_singleton] at hp
      subst hp
      simp
  | fuel + 1, cs, hle => by
      intro p hp
      by_cases hcs : cs.length ≤ chunk_size
      · simp only [splitCharsAux, if_pos hcs, List.mem_singleton] at hp
        subst hp
        exact hcs
      · simp only [splitCharsAux, if_neg hcs] at hp
        rcases List.mem_cons.mp hp with rfl | hp'
        · simp [List.length_take_le]
        · refine splitCharsAux_length_le chunk_size step hstep fuel (cs.drop step) ?_ p hp'
          rw [List.length_drop]
          omega

lemma splitCharsAux_infix (chunk_size step : Nat) :
    ∀ (fuel : Nat) (cs : List Char), ∀ p ∈ splitCharsAux chunk_size step fuel cs,
      ∃ pre post, cs = pre ++ p ++ post
  | 0, cs => by
      intro p hp
      simp only [splitCharsAux, List.mem_singleton] at hp
      subst hp
      exact ⟨[], [], by simp⟩
  | fuel + 1, cs => by
      intro p hp
      by_cases hcs : cs.length ≤ chunk_size
      · simp only [splitCharsAux, if_pos hcs, List.mem_singleton] at hp
        subst hp
        exact ⟨[], [], by simp⟩
      · simp only [splitCharsAux, if_neg hcs] at hp
        rcases List.mem_cons.mp hp with rfl | hp'
        · exact ⟨[], cs.drop chunk_size, by simp⟩
        · rcases splitCharsAux_infix chunk_size step fuel (cs.drop step) p hp' with
            ⟨pre, post, heq⟩
          refine ⟨cs.take step ++ pre, post, ?_⟩
          conv_lhs => rw [← List.take_append_drop step cs, heq]
          simp [List.append_assoc]

/-- Everything that holds of a chunk cut from one scraped document: the size
bound, the metadata it carries (note: the url is stored under key `source`,
and no `source_url` key exists), and that its content is a contiguous slice
of that document's text. -/
lemma docChunks_spec (chunk_size overlap : Nat) (doc : ScrapedDoc) :
    ∀ c ∈ docChunks chunk_size overlap doc,
      c.page_content.length ≤ chunk_size
      ∧ Metadata.get c.metadata "source" = some (doc.url.getD "unknown")
      ∧ Metadata.get c.metadata "title" = some (doc.title.getD "Untitled")
      ∧ Metadata.get c.metadata "source_url" = none
      ∧ ∃ pre post, (doc.text.getD "").toList = pre ++ c.page_content.toList ++ post := by
  intro c hc
  rw [docChunks] at hc
  by_cases hshort : doc.text.getD "" = "" ∨ (strip (doc.text.getD "")).length < 100
  · rw [if_pos hshort] at hc
    exact absurd hc (List.not_mem_nil c)
  · rw [if_neg hshort] at hc
    rcases List.mem_map.mp hc with ⟨piece, hpiece, rfl⟩
    rcases List.mem_map.mp hpiece with ⟨p, hp, rfl⟩
    have hstep : 1 ≤ max (chunk_size - overlap) 1 := le_max_right _ _
    refine ⟨?_, rfl, rfl, rfl, ?_⟩
    · show (String.mk p).length ≤ chunk_size
      rw [String.length_mk]
      exact splitCharsAux_length_le chunk_size _ hstep _ _ le_rfl p hp
    · rcases splitCharsAux_infix chunk_size _ _ _ p hp with ⟨pre, post, heq⟩
      exact ⟨pre, post, heq⟩

/-- C7: modelled from the spec for the library text splitter — every chunk
emitted by a chunking run holds at most `chunk_size` characters, and every
chunk's text and source metadata come from a single input document: its
content is a contiguous slice of that document's text and its `source`
metadata is that document's url. -/
theorem chunk_size_bound_and_no_cross_document (chunk_size overlap : Nat)
    (_hov : overlap < chunk_size) (documents : List ScrapedDoc) :
    ∀ c ∈ IngestionPipeline.chunk_documents chunk_size overlap documents,
      c.page_content.length ≤ chunk_size
      ∧ ∃ d ∈ documents,
          Metadata.get c.metadata "source" = some (d.url.getD "unknown")
          ∧ ∃ pre post, (d.text.getD "").toList = pre ++ c.page_content.toList ++ post := by
  intro c hc
  rcases List.mem_flatMap.mp hc with ⟨d, hd, hcd⟩
  rcases docChunks_spec chunk_size overlap d c hcd with ⟨hlen, hsrc, _, _, hinfix⟩
  exact ⟨hlen, d, hd, hsrc, hinfix⟩

/-- A 120-character sample text, long enough to clear the noise filter. -/
def sampleText : String := String.mk (List.replicate 120 'k')

/-- A concrete scraped document with 120 characters of text. -/
def sampleScraped : ScrapedDoc :=
  ScrapedDoc.mk (some "https://example.com/fund") (some "Example Fund")
    (some sampleText) (some "2024-01-01")

/-- Witness for the chunk-size/provenance theorem at the configured
`(chunk_size, overlap) = (200, 50)`. -/
theorem chunk_size_bound_and_no_cross_document_witness :
    50 < 200
  ∧ (∀ c ∈ IngestionPipeline.chunk_documents 200 50 [sampleScraped],
      c.page_content.length ≤ 200
      ∧ ∃ d ∈ [sampleScraped],
          Metadata.get c.metadata "source" = some (d.url.getD "unknown")
          ∧ ∃ pre post, (d.text.getD "").toList = pre ++ c.page_content.toList ++ post) :=
  ⟨by decide, chunk_size_bound_and_no_cross_document 200 50 (by decide) [sampleScraped]⟩

/-- C8: the ingestion pipeline stores a chunk's url under metadata key
`source`, while the citation formatter and the ungrouped-context emitter read
metadata key `source_url`; hence every citation built for an ingested chunk
has an empty url, and the `Additional Information` lines for such a chunk
consist of exactly the `Source:` line and the content — the `URL:` line is
never emitted. -/
theorem ingested_chunk_key_mismatch (chunk_size overlap : Nat)
    (d : ScrapedDoc) (c : Document) (hc : c ∈ docChunks chunk_size overlap d) :
    Metadata.get c.metadata "source" = some (d.url.getD "unknown")
  ∧ Metadata.get c.metadata "source_url" = none
  ∧ (∀ q : ℚ, (RAGSystem.format_source (c, q)).url = "")
  ∧ otherDocParts c = ["Source: " ++ d.title.getD "Untitled", c.page_content ++ "\n"] := by
  rcases docChunks_spec chunk_size overlap d c hc with ⟨_, hsrc, htitle, hnourl, _⟩
  have hurl : Metadata.getD c.metadata "source_url" "" = "" := by
    rw [Metadata.getD, hnourl]
    rfl
  refine ⟨hsrc, hnourl, ?_, ?_⟩
  · intro q
    show Metadata.getD c.metadata "source_url" "" = ""
    exact hurl
  · rw [otherDocParts, hurl, Metadata.getD, htitle]
    simp

/-- The single chunk cut from `sampleScraped`. -/
def sampleChunk : Document :=
  Document.mk sampleText
    ⟨[("source", "https://example.com/fund"), ("title", "Example Fund"),
      ("crawled_at", "2024-01-01")]⟩

set_option maxRecDepth 10000 in
/-- Witness for the key-mismatch theorem on a concrete ingested chunk. -/
theorem ingested_chunk_key_mismatch_witness :
    sampleChunk ∈ docChunks 200 50 sampleScraped
  ∧ (Metadata.get sampleChunk.metadata "source"
        = some (sampleScraped.url.getD "unknown")
    ∧ Metadata.get sampleChunk.metadata "source_url" = none
    ∧ (∀ q : ℚ, (RAGSystem.format_source (sampleChunk, q)).url = "")
    ∧ otherDocParts sampleChunk
        = ["Source: " ++ sampleScraped.title.getD "Untitled",
           sampleChunk.page_content ++ "\n"]) :=
  ⟨by decide, ingested_chunk_key_mismatch 200 50 sampleScraped sampleChunk (by decide)⟩

/-- C9: a retrieved match whose `fund_name` metadata is present but equals
the literal `Unknown` or the empty string is placed in the
`Additional Information` bucket (`other_docs`) and belongs to no fund group,
for every match list. -/
theorem unknown_or_empty_fund_not_grouped (documents : List Document)
    (d : Document) (hmem : d ∈ documents)
    (hv : Metadata.get d.metadata "fund_name" = some ""
        ∨ Metadata.get d.metadata "fund_name" = some "Unknown") :
    d ∈ (RAGSystem.group_docs documents).2
  ∧ ∀ g ∈ (RAGSystem.group_docs documents).1, d ∉ g.2 := by
  have hng : RAGSystem.groupable d = false := by
    rcases hv with h | h <;>
      simp [RAGSystem.groupable, RAGSystem.fund_name_of, Metadata.getD, h]
  rw [group_docs_eq]
  constructor
  · exact List.mem_filter.mpr ⟨hmem, by simp [hng]⟩
  · intro g hg hdg
    rcases List.mem_map.mp hg with ⟨k, _, rfl⟩
    have hcond := (List.mem_filter.mp hdg).2
    rw [Bool.and_eq_true] at hcond
    rw [hng] at hcond
    exact Bool.false_ne_true hcond.1

/-- A match tagged with the `Unknown` placeholder fund name. -/
def unknownTagged : Document :=
  Document.mk "some placeholder content" ⟨[("fund_name", "Unknown")]⟩

/-- Witness for the Unknown/empty-fund theorem. -/
theorem unknown_or_empty_fund_not_grouped_witness :
    (unknownTagged ∈ [unknownTagged]
      ∧ (Metadata.get unknownTagged.metadata "fund_name" = some ""
        ∨ Metadata.get unknownTagged.metadata "fund_name" = some "Unknown"))
  ∧ (unknownTagged ∈ (RAGSystem.group_docs [unknownTagged]).2
    ∧ ∀ g ∈ (RAGSystem.group_docs [unknownTagged]).1, unknownTagged ∉ g.2) :=
  ⟨⟨by decide, Or.inr rfl⟩,
   unknown_or_empty_fund_not_grouped [unknownTagged] unknownTagged (by decide) (Or.inr rfl)⟩

/-- C10: if scraping returns a non-empty list but every document is filtered
out as noise, the run completes successfully: zero chunks are created, the
store's add operation returns an empty id list leaving the store untouched,
and the reported statistics show `chunks_created = 0` and
`chunks_indexed = 0`. -/
theorem all_noise_ingestion_succeeds (chunk_size overlap : Nat) (url : String)
    (scraped_docs : List ScrapedDoc) (store : List Document)
    (hne : scraped_docs ≠ [])
    (hnoise : ∀ d ∈ scraped_docs, (strip (d.text.getD "")).length < 100) :
    IngestionPipeline.chunk_documents chunk_size overlap scraped_docs = []
    ∧ VectorStore.add_documents store
        (IngestionPipeline.chunk_documents chunk_size overlap scraped_docs)
        = ([], store)
    ∧ IngestionPipeline.run chunk_size overlap url scraped_docs store
        = (Except.ok
            { documents_scraped := scraped_docs.length
            , chunks_created := 0
            , chunks_indexed := 0 }, store) := by
  have hchunks : IngestionPipeline.chunk_documents chunk_size overlap scraped_docs = [] := by
    rw [IngestionPipeline.chunk_documents, List.flatMap_eq_nil_iff]
    intro d hd
    exact docChunks_eq_nil_of_short chunk_size overlap d (hnoise d hd)
  have hadd : VectorStore.add_documents store
      (IngestionPipeline.chunk_documents chunk_size overlap scraped_docs) = ([], store) := by
    rw [hchunks]
    rfl
  refine ⟨hchunks, hadd, ?_⟩
  have hno : scraped_docs.isEmpty = false := by
    cases scraped_docs with
    | nil => exact absurd rfl hne
    | cons a l => rfl
  rw [IngestionPipeline.run, if_neg (by simp [hno]), hchunks]
  rfl

/-- Witness for the all-noise ingestion theorem: one 4-character document. -/
theorem all_noise_ingestion_succeeds_witness :
    ([ScrapedDoc.mk none none (some "tiny") none] ≠ []
      ∧ ∀ d ∈ [ScrapedDoc.mk none none (some "tiny") none],
          (strip (d.text.getD "")).length < 100)
  ∧ (IngestionPipeline.chunk_documents 200 50
        [ScrapedDoc.mk none none (some "tiny") none] = []
    ∧ VectorStore.add_documents []
        (IngestionPipeline.chunk_documents 200 50
          [ScrapedDoc.mk none none (some "tiny") none]) = ([], [])
    ∧ IngestionPipeline.run 200 50 "https://example.com"
        [ScrapedDoc.mk none none (some "tiny") none] []
        = (Except.ok
            { documents_scraped := 1, chunks_created := 0, chunks_indexed := 0 }, [])) :=
  ⟨⟨by decide, by decide⟩,
   all_noise_ingestion_succeeds 200 50 "https://example.com"
     [ScrapedDoc.mk none none (some "tiny") none] [] (by decide) (by decide)⟩

/-- C1: for every non-empty match list, the context assembler partitions the
matches by fund name: the fund groups are exactly one group per distinct
(usable) fund name — a nonempty name other than the `Unknown` placeholder,
cf. the Unknown/empty handling proved separately — in order of first
appearance among the matches, each group holding its matches in match order;
every match without a usable fund name lands in `other_docs` in match order;
the emitted context parts are the fund blocks in that group order followed by
the single `Additional Information` block; and no fund name heads two
groups. -/
theorem fund_grouping_partitions_matches (documents : List Document)
    (_hne : documents ≠ []) :
    RAGSystem.group_docs documents
      = (specGroups documents,
         documents.filter (fun d => !(RAGSystem.groupable d)))
  ∧ ((RAGSystem.group_docs documents).1.map Prod.fst).Nodup
  ∧ RAGSystem.context_parts documents
      = fundGroupParts (specGroups documents)
        ++ otherParts (documents.filter (fun d => !(RAGSystem.groupable d))) := by
  refine ⟨group_docs_eq documents, ?_, ?_⟩
  · rw [group_docs_eq]
    show ((specGroups documents).map Prod.fst).Nodup
    rw [specGroups, List.map_map]
    have hfst : (Prod.fst ∘ fun k => (k, groupOf documents k)) = id := rfl
    rw [hfst, List.map_id]
    exact firstOccs_nodup _
  · show fundGroupParts (RAGSystem.group_docs documents).1
        ++ otherParts (RAGSystem.group_docs documents).2 = _
    rw [group_docs_eq]

/-- The spec's multi-entity scenario: two matches tagged `Acme Fund`. -/
def acmeDoc1 : Document :=
  Document.mk "Acme fact one" ⟨[("fund_name", "Acme Fund")]⟩

/-- The spec's multi-entity scenario: second match tagged `Acme Fund`. -/
def acmeDoc2 : Document :=
  Document.mk "Acme fact two" ⟨[("fund_name", "Acme Fund")]⟩

/-- The spec's multi-entity scenario: one untagged match. -/
def untaggedDoc : Document :=
  Document.mk "general fact" ⟨[("title", "Page")]⟩

/-- Witness for the grouping theorem at the spec's multi-entity scenario. -/
theorem fund_grouping_partitions_matches_witness :
    [acmeDoc1, acmeDoc2, untaggedDoc] ≠ ([] : List Document)
  ∧ (RAGSystem.group_docs [acmeDoc1, acmeDoc2, untaggedDoc]
      = (specGroups [acmeDoc1, acmeDoc2, untaggedDoc],
         [acmeDoc1, acmeDoc2, untaggedDoc].filter (fun d => !(RAGSystem.groupable d)))
    ∧ ((RAGSystem.group_docs [acmeDoc1, acmeDoc2, untaggedDoc]).1.map Prod.fst).Nodup
    ∧ RAGSystem.context_parts [acmeDoc1, acmeDoc2, untaggedDoc]
        = fundGroupParts (specGroups [acmeDoc1, acmeDoc2, untaggedDoc])
          ++ otherParts
              ([acmeDoc1, acmeDoc2, untaggedDoc].filter
                (fun d => !(RAGSystem.groupable d)))) :=
  ⟨by decide, fund_grouping_partitions_matches [acmeDoc1, acmeDoc2, untaggedDoc] (by decide)⟩

/-- C2: when the composed context exceeds `MAX_CONTEXT_LENGTH` characters,
the context assembler returns exactly the first `MAX_CONTEXT_LENGTH`
characters followed by the ellipsis marker (so the result has exactly
`MAX_CONTEXT_LENGTH + 3` characters); a composed context at or below the
limit is returned unchanged. -/
theorem context_truncation (documents : List Document) :
    (MAX_CONTEXT_LENGTH < (RAGSystem.compose_context documents).length →
      RAGSystem.prepare_context documents
        = String.mk ((RAGSystem.compose_context documents).toList.take MAX_CONTEXT_LENGTH)
            ++ "..."
      ∧ (RAGSystem.prepare_context documents).length = MAX_CONTEXT_LENGTH + 3)
  ∧ ((RAGSystem.compose_context documents).length ≤ MAX_CONTEXT_LENGTH →
      RAGSystem.prepare_context documents = RAGSystem.compose_context documents) := by
  constructor
  · intro h
    have hif : RAGSystem.prepare_context documents
        = pySlice (RAGSystem.compose_context documents) MAX_CONTEXT_LENGTH ++ "..." := by
      show (if (RAGSystem.compose_context documents).length > MAX_CONTEXT_LENGTH
            then pySlice (RAGSystem.compose_context documents) MAX_CONTEXT_LENGTH ++ "..."
            else RAGSystem.compose_context documents) = _
      rw [if_pos h]
    refine ⟨hif, ?_⟩
    rw [hif, String.length_append]
    have h1 : (pySlice (RAGSystem.compose_context documents) MAX_CONTEXT_LENGTH).length
        = MAX_CONTEXT_LENGTH := by
      have hlen : (RAGSystem.compose_context documents).toList.length
          = (RAGSystem.compose_context documents).length := rfl
      rw [pySlice, String.length_mk, List.length_take, hlen]
      exact Nat.min_eq_left (Nat.le_of_lt h)
    rw [h1]
    rfl
  · intro h
    show (if (RAGSystem.compose_context documents).length > MAX_CONTEXT_LENGTH
          then pySlice (RAGSystem.compose_context documents) MAX_CONTEXT_LENGTH ++ "..."
          else RAGSystem.compose_context documents) = _
    rw [if_neg (Nat.not_lt.mpr h)]

/-- A 9000-character content string. -/
def bigContent : String := String.mk (List.replicate 9000 'a')

/-- One retrieved match tagged with fund `F`, carrying 9000 characters of
content, so the composed context exceeds the 8000-character budget. -/
def bigDoc : Document := Document.mk bigContent ⟨[("fund_name", "F")]⟩

/-- Witness for the truncation theorem: a 9012-character composed context. -/
theorem context_truncation_witness :
    MAX_CONTEXT_LENGTH < (RAGSystem.compose_context [bigDoc]).length
  ∧ (RAGSystem.prepare_context [bigDoc]
      = String.mk ((RAGSystem.compose_context [bigDoc]).toList.take MAX_CONTEXT_LENGTH)
          ++ "..."
    ∧ (RAGSystem.prepare_context [bigDoc]).length = MAX_CONTEXT_LENGTH + 3) := by
  have hcc : RAGSystem.compose_context [bigDoc]
      = "=== F ===" ++ "\n" ++ (bigContent ++ "\n" ++ "") := rfl
  have hb : bigContent.length = 9000 := by
    show (String.mk (List.replicate 9000 'a')).length = 9000
    rw [String.length_mk, List.length_replicate]
  have hlen : MAX_CONTEXT_LENGTH < (RAGSystem.compose_context [bigDoc]).length := by
    rw [hcc, String.length_append, String.length_append, String.length_append,
      String.length_append, hb]
    have h1 : "=== F ===".length = 9 := rfl
    have h2 : "\n".length = 1 := rfl
    have h3 : "".length = 0 := rfl
    have hM : MAX_CONTEXT_LENGTH = 8000 := rfl
    omega
  exact ⟨hlen, (context_truncation [bigDoc]).1 hlen⟩
